import Mathlib

/-!
Verification development for the dynamo-tools repository.

The code under scrutiny is `src/Item.js` (the value codec `toObject`,
`fromObject`, `isPOJO`) and `src/Cache.js` (the request builders
`updateOne`, `increment`, `_query`).  JavaScript values are embedded
shallowly by the mutually inductive type `Jx` below; native values and
wire (DynamoDB attribute-value) records both live in `Jx`, exactly as in
the dynamically typed source, where a wire value is just a plain object
carrying a tag-named property.
-/

mutual
/-- Model of the JavaScript values handled by the codec.

  * `undef` is the JS value `undefined`; `jnull` is `null`.
  * `jbool`, `jstr` are primitives, represented exactly.
  * `jnum` is a JS number.  The repository only produces and consumes
    integral numbers (`Number(..)`, `toString()`, the digit-string
    heuristic), so the embedding uses `Int`; floats and NaN are outside
    the model.
  * `jbuf` is a Node `Buffer`, as its list of bytes (each byte `< 256`).
  * `jset` is a JS `Set`, as its members in insertion order (a JS set
    enumerates in insertion order and holds no duplicate members under
    SameValueZero: primitives compare by value, objects by reference).
  * `jarr` is a JS array.
  * `jobj` is a plain object, as its own enumerable properties in
    insertion order.  A property stored with value `undef` models a JS
    property that exists but holds `undefined` (so `Object.keys` lists
    it, while reading an absent property also yields `undefined`). -/
inductive Jx where
  | undef : Jx
  | jnull : Jx
  | jbool (b : Bool) : Jx
  | jnum (n : Int) : Jx
  | jstr (s : String) : Jx
  | jbuf (bytes : List Nat) : Jx
  | jset (elems : JxList) : Jx
  | jarr (elems : JxList) : Jx
  | jobj (fields : JxFields) : Jx
  deriving Repr, DecidableEq

/-- A list of JS values (element list of an array or a set). -/
inductive JxList where
  | nil : JxList
  | cons (head : Jx) (tail : JxList) : JxList
  deriving Repr, DecidableEq

/-- The own enumerable properties of a plain JS object, in insertion
order. -/
inductive JxFields where
  | nil : JxFields
  | cons (key : String) (val : Jx) (tail : JxFields) : JxFields
  deriving Repr, DecidableEq
end

open Jx

/-- Property read `o[k]` on a plain object: the first binding of the key,
or `undefined` when the key is absent. -/
def JxFields.get : JxFields → String → Jx
  | .nil, _ => undef
  | .cons k v rest, key => if k = key then v else rest.get key

/-- JS `Object.prototype.hasOwnProperty` on our assoc-list objects. -/
def JxFields.hasOwn : JxFields → String → Bool
  | .nil, _ => false
  | .cons k _ rest, key => k = key || rest.hasOwn key

/-- The keys of a plain object, in order (`Object.keys`). -/
def JxFields.keys : JxFields → List String
  | .nil => []
  | .cons k _ rest => k :: rest.keys

/-- Number of own enumerable properties (`Object.keys(o).length`). -/
def JxFields.length : JxFields → Nat
  | .nil => 0
  | .cons _ _ rest => rest.length + 1

/-- `Object.keys(o)[0]` — the first key, or `undefined` for an empty
object (returned as a `Jx` because JS hands back `undefined`). -/
def JxFields.firstKeyJx : JxFields → Jx
  | .nil => undef
  | .cons k _ _ => jstr k

/-- `Object.values(o)[0]` — the first value, or `undefined`. -/
def JxFields.firstValJx : JxFields → Jx
  | .nil => undef
  | .cons _ v _ => v

/-- `xs[0]` on a JS array (or the first member handed out by a set
iterator): the head, or `undefined` when empty. -/
def JxList.headOrUndef : JxList → Jx
  | .nil => undef
  | .cons x _ => x

/-- JS truthiness.  `undefined`, `null`, `false`, `0` and `""` are falsy;
every object (even an empty array, buffer, set or plain object) is
truthy. -/
def truthy : Jx → Bool
  | undef => false
  | jnull => false
  | jbool b => b
  | jnum n => n != 0
  | jstr s => s != ""
  | jbuf _ => true
  | jset _ => true
  | jarr _ => true
  | jobj _ => true

/-- Model of `isPOJO` (src/Item.js lines 133-141): not an array, not a
Buffer, not a Set, not `null`, and of type object.  Among the embedded
values exactly the plain objects qualify (scalars and `undefined` fail
the `typeof obj === "object"` test, `null` is excluded explicitly). -/
def isPOJO : Jx → Bool
  | jobj _ => true
  | _ => false

/-- The test `/^\d+$/.test(s)` from src/Item.js line 72: at least one
character and every character a decimal digit. -/
def digitsOnly (s : String) : Bool :=
  !s.data.isEmpty && s.data.all Char.isDigit

/-! ## Decimal printing and parsing

`fromObject` stores numbers with JS `toString()`, and `toObject` reads
them back with `Number(..)`.  The printer below is fuel-driven so that it
is structurally recursive (hence kernel-evaluable); `natStr` always
supplies sufficient fuel. -/

/-- The character for one decimal digit. -/
def digitChar : Nat → Char
  | 0 => '0' | 1 => '1' | 2 => '2' | 3 => '3' | 4 => '4'
  | 5 => '5' | 6 => '6' | 7 => '7' | 8 => '8' | 9 => '9'
  | _ => '*'

/-- Decimal digits of `n`, most significant first; `fuel` only bounds the
recursion depth. -/
def natChars : Nat → Nat → List Char
  | 0, _ => []
  | fuel + 1, n =>
    if n < 10 then [digitChar n]
    else natChars fuel (n / 10) ++ [digitChar (n % 10)]

/-- Decimal representation of a natural number (JS `toString()` for
non-negative integers). -/
def natStr (n : Nat) : String := ⟨natChars (n + 1) n⟩

/-- JS `Number.prototype.toString` on an integral number. -/
def intStr : Int → String
  | .ofNat m => natStr m
  | .negSucc m => "-" ++ natStr (m + 1)

/-- The numeric value of a decimal digit character, if it is one. -/
def digVal (c : Char) : Option Nat :=
  if 48 ≤ c.toNat && c.toNat ≤ 57 then some (c.toNat - 48) else none

/-- Accumulating decimal parse; fails on any non-digit character. -/
def parseDigitsAux : List Char → Nat → Option Nat
  | [], acc => some acc
  | c :: cs, acc =>
    match digVal c with
    | some d => parseDigitsAux cs (acc * 10 + d)
    | none => none

/-- Parse a nonempty run of decimal digits. -/
def parseDigits (cs : List Char) : Option Nat :=
  if cs.isEmpty then none else parseDigitsAux cs 0

/-- Model of JS `Number(string)` restricted to integral literals: the
empty string coerces to `0`; an optional sign followed by decimal digits
parses as an integer; every other input (floats, exponents, hex,
whitespace forms, and the NaN outcome) is outside the model and returns
`none`.  The codec only ever feeds this function outputs of `intStr` and
digit-only strings. -/
def jsNumOfString (s : String) : Option Int :=
  match s.data with
  | [] => some 0
  | c :: cs =>
    if c = '-' then (parseDigits cs).map (fun m => -(m : Int))
    else if c = '+' then (parseDigits cs).map (fun m => (m : Int))
    else (parseDigits (c :: cs)).map (fun m => (m : Int))

/-! ## Base64

`fromObject` stores a Buffer as `buf.toString("base64")` and `toObject`
reads it back with `Buffer.from(str, "base64")`.  The encoder below is
standard base64 with `=` padding, which is what Node produces.  The
decoder models Node's reading of exactly that output; Node's leniency on
malformed input (skipping invalid characters, tolerating absent padding)
is outside the model, so such inputs return `none`. -/

/-- The base64 alphabet. -/
def b64Alphabet : List Char :=
  "ABCDEFGHIJKLMNOPQRSTUVWXYZabcdefghijklmnopqrstuvwxyz0123456789+/".data

/-- Character for a 6-bit group. -/
def sextetChar (n : Nat) : Char := b64Alphabet.getD n 'A'

/-- Index of a character in the base64 alphabet. -/
def charSextetAux : Nat → List Char → Char → Option Nat
  | _, [], _ => none
  | i, a :: as, c => if a = c then some i else charSextetAux (i + 1) as c

/-- Inverse of `sextetChar` on the alphabet. -/
def charSextet (c : Char) : Option Nat := charSextetAux 0 b64Alphabet c

/-- Base64 encoding of a byte list, three bytes at a time, `=`-padded. -/
def b64EncodeChunks : List Nat → List Char
  | b0 :: b1 :: b2 :: rest =>
    sextetChar (b0 / 4) :: sextetChar (b0 % 4 * 16 + b1 / 16) ::
      sextetChar (b1 % 16 * 4 + b2 / 64) :: sextetChar (b2 % 64) :: b64EncodeChunks rest
  | [b0, b1] => [sextetChar (b0 / 4), sextetChar (b0 % 4 * 16 + b1 / 16), sextetChar (b1 % 16 * 4), '=']
  | [b0] => [sextetChar (b0 / 4), sextetChar (b0 % 4 * 16), '=', '=']
  | [] => []

/-- Model of `buf.toString("base64")`. -/
def base64encode (bs : List Nat) : String := ⟨b64EncodeChunks bs⟩

/-- Base64 decoding, four characters at a time. -/
def b64DecodeChunks : List Char → Option (List Nat)
  | c0 :: c1 :: c2 :: c3 :: rest =>
    match charSextet c0, charSextet c1 with
    | some s0, some s1 =>
      if c2 = '=' then
        if c3 = '=' ∧ rest = [] then some [s0 * 4 + s1 / 16] else none
      else
        match charSextet c2 with
        | some s2 =>
          if c3 = '=' then
            if rest = [] then some [s0 * 4 + s1 / 16, s1 % 16 * 16 + s2 / 4] else none
          else
            match charSextet c3 with
            | some s3 =>
              (b64DecodeChunks rest).map
                (fun bs => (s0 * 4 + s1 / 16) :: (s1 % 16 * 16 + s2 / 4) :: (s2 % 4 * 64 + s3) :: bs)
            | none => none
        | none => none
    | _, _ => none
  | [] => some []
  | _ => none

/-- Model of `Buffer.from(str, "base64")` on well-formed input. -/
def base64decode (s : String) : Option (List Nat) := b64DecodeChunks s.data

/-! ## JS coercions used by the codec -/

/-- JS `x.toString()` as used on line 11 of src/Item.js.  Exact for
strings, integral numbers, booleans and plain objects; `undefined` and
`null` throw (`none`); Buffer/Set/Array stringification is outside the
model (the development never evaluates those cases). -/
def jsToString : Jx → Option String
  | jstr s => some s
  | jnum n => some (intStr n)
  | jbool b => some (if b then "true" else "false")
  | jobj _ => some "[object Object]"
  | _ => none

/-- JS `Number(x)` as used on line 15 of src/Item.js.  NaN results and
object coercions are outside the model. -/
def jsNumberOf : Jx → Option Int
  | jnum n => some n
  | jbool b => some (if b then 1 else 0)
  | jnull => some 0
  | jstr s => jsNumOfString s
  | _ => none

/-- JS `String(x)` as used on line 43 of src/Item.js.  Unlike
`jsToString`, `String(null)` and `String(undefined)` do not throw. -/
def jsStringCoerce : Jx → Option String
  | jstr s => some s
  | jnum n => some (intStr n)
  | jbool b => some (if b then "true" else "false")
  | jnull => some "null"
  | undef => some "undefined"
  | jobj _ => some "[object Object]"
  | _ => none

/-- One member of a binary set on the encode side:
`buff.toString("base64")` (src/Item.js line 113).  For a string member
the radix argument is ignored and the string is returned; a boolean
stringifies; number, `null` and `undefined` members throw in JS and are
left unchanged here — unreachable under the homogeneity hypotheses used
in every theorem below. -/
def toB64Member : Jx → Jx
  | jbuf bs => jstr (base64encode bs)
  | jstr s => jstr s
  | jbool b => jstr (if b then "true" else "false")
  | x => x

/-- Map `toB64Member` over the members of a set. -/
def mapToB64 : JxList → JxList
  | .nil => .nil
  | .cons x xs => .cons (toB64Member x) (mapToB64 xs)

/-- Decode side of `{SS}`: `dynamoItem.SS.map(String)`. -/
def mapStringCoerce : JxList → Option JxList
  | .nil => some .nil
  | .cons x xs =>
    match jsStringCoerce x, mapStringCoerce xs with
    | some s, some ys => some (.cons (jstr s) ys)
    | _, _ => none

/-- Decode side of `{NS}`: `dynamoItem.NS.map(Number)`. -/
def mapNumberCoerce : JxList → Option JxList
  | .nil => some .nil
  | .cons x xs =>
    match jsNumberOf x, mapNumberCoerce xs with
    | some n, some ys => some (.cons (jnum n) ys)
    | _, _ => none

/-- Decode side of `{BS}`: each blob through `Buffer.from(blob, "base64")`. -/
def mapFromB64 : JxList → Option JxList
  | .nil => some .nil
  | .cons (jstr s) xs =>
    match base64decode s, mapFromB64 xs with
    | some bs, some ys => some (.cons (jbuf bs) ys)
    | _, _ => none
  | .cons _ _ => none

/-- The deduplication performed by `new Set(list)`: keep the first
occurrence of each member, drop later repeats.  `seen` accumulates the
members already kept. -/
def dedupFirstAux : JxList → List Jx → JxList
  | .nil, _ => .nil
  | .cons x xs, seen =>
    if x ∈ seen then dedupFirstAux xs seen
    else .cons x (dedupFirstAux xs (x :: seen))

/-- `new Set(list)` member list, in first-occurrence order. -/
def dedupFirst (xs : JxList) : JxList := dedupFirstAux xs []

/-! ## The codec: `fromObject` (src/Item.js lines 67-131) -/

mutual
/-- Model of `fromObject`.

Branches, in source order:
  * line 68-70: `undefined` in, `undefined` out;
  * line 72-74: a string that does not match `/^\d+$/` becomes `{S}`;
  * line 76-81: a number — or a digit-only string, which always passes
    the `!isNaN(obj) && !isNaN(parseFloat(obj))` guard — becomes `{N}`
    carrying its `toString()` (a digit-only string is its own
    `toString()`);
  * line 83-85: a Buffer becomes `{B}` with its base64 text;
  * line 87-89: a boolean becomes `{BOOL}`;
  * line 91-93: `null` becomes `{NULL: true}`;
  * line 95-100: an array becomes `{L}`; when its FIRST element is a
    plain object every element is wrapped `{M: fromObject(elem)}`,
    otherwise every element is encoded directly;
  * line 102-115: a nonempty set is tagged from its first member: `{SS}`
    with the raw members, `{NS}` with the raw (numeric!) members, or
    `{BS}` with base64 strings;
  * line 117-130: any other object — including a set with no matching
    first member, whose `Object.keys` is empty — is encoded field by
    field: plain-object values are wrapped in `{M}`, other values are
    encoded directly, and fields whose encoding is `undefined` are
    deleted. -/
def fromObject : Jx → Jx
  | .undef => .undef
  | .jstr s =>
    if digitsOnly s then jobj (.cons "N" (jstr s) .nil)
    else jobj (.cons "S" (jstr s) .nil)
  | .jnum n => jobj (.cons "N" (jstr (intStr n)) .nil)
  | .jbuf bs => jobj (.cons "B" (jstr (base64encode bs)) .nil)
  | .jbool b => jobj (.cons "BOOL" (jbool b) .nil)
  | .jnull => jobj (.cons "NULL" (jbool true) .nil)
  | .jarr xs =>
    if isPOJO xs.headOrUndef then jobj (.cons "L" (jarr (fromListWrapped xs)) .nil)
    else jobj (.cons "L" (jarr (fromList xs)) .nil)
  | .jset xs =>
    match xs.headOrUndef with
    | jstr _ => jobj (.cons "SS" (jarr xs) .nil)
    | jnum _ => jobj (.cons "NS" (jarr xs) .nil)
    | jbuf _ => jobj (.cons "BS" (jarr (mapToB64 xs)) .nil)
    | _ => jobj .nil
  | .jobj fields => jobj (fromFields fields)

/-- `obj.map(fromObject)` — src/Item.js line 99. -/
def fromList : JxList → JxList
  | .nil => .nil
  | .cons x xs => .cons (fromObject x) (fromList xs)

/-- `obj.map((elem) => ({M: fromObject(elem)}))` — src/Item.js line 97. -/
def fromListWrapped : JxList → JxList
  | .nil => .nil
  | .cons x xs => .cons (jobj (.cons "M" (fromObject x) .nil)) (fromListWrapped xs)

/-- The field loop of lines 119-128: wrap plain-object values in `{M}`,
encode other values directly, and delete fields whose entry ended up
`undefined` (exactly the fields whose value was `undefined`). -/
def fromFields : JxFields → JxFields
  | .nil => .nil
  | .cons k v rest =>
    if isPOJO v then .cons k (jobj (.cons "M" (fromObject v) .nil)) (fromFields rest)
    else
      match fromObject v with
      | .undef => fromFields rest
      | w => .cons k w (fromFields rest)
end

/-! ## The codec: `toObject` (src/Item.js lines 1-65) -/

def sizeOf_get_le : ∀ (fs : JxFields) (k : String), sizeOf (fs.get k) ≤ sizeOf fs
  | .nil, _ => by simp [JxFields.get]
  | .cons k2 v rest, k => by
    have ih := sizeOf_get_le rest k
    simp only [JxFields.get]
    by_cases h : k2 = k
    · simp only [h, if_pos rfl]
      simp
      omega
    · simp only [if_neg h]
      simp
      omega

mutual
/-- Model of `toObject`.  `none` models a thrown exception or a JS
behavior outside the embedding (each such spot is commented); `some
.undef` models returning `undefined`.

The tag dispatch on a plain object follows the source's order and its
exact guards: `typeof x !== "undefined"` for `S` and `N`, truthiness for
`B`, `NULL`, `M`, `L`, `SS`, `NS` and `BS`, and `hasOwnProperty` for
`BOOL` (whose stored value is returned as-is). -/
def toObject : Jx → Option Jx
  | .undef => some .undef
  | .jstr s => some (jstr s)             -- line 6-8: not of type object
  | .jnum n => some (jnum n)
  | .jbool b => some (jbool b)
  | .jnull => none  -- typeof null is "object", so line 6 falls through and
                    -- reading .S of null throws a TypeError
  | .jbuf _ => none -- a bare Buffer reaches the final branch, which enumerates
                    -- its numeric indices; nothing in the repository decodes a
                    -- bare Buffer and no theorem below evaluates this case
  | .jset _ => some (jobj .nil) -- no tag property, and Object.keys of a Set is
                                -- empty, so the final branch yields {}
  | .jarr xs => (toList xs).map jarr     -- arrays carry no tag properties; line 54-56
  | .jobj fields =>
    if fields.get "S" ≠ undef then
      (jsToString (fields.get "S")).map jstr
    else if fields.get "N" ≠ undef then
      (jsNumberOf (fields.get "N")).map jnum
    else if truthy (fields.get "B") then
      match fields.get "B" with
      | jstr s => (base64decode s).map jbuf
      | _ => none  -- Buffer.from on a truthy non-string is outside the model
    else if fields.hasOwn "BOOL" then
      some (fields.get "BOOL")
    else if truthy (fields.get "NULL") then
      some jnull
    else if hM : truthy (fields.get "M") then
      match hMv : fields.get "M" with
      | jobj mfields => (toFields mfields).map jobj
      | _ => none  -- Object.keys on a truthy non-object M payload is outside the model
    else if hL : truthy (fields.get "L") then
      match hLv : fields.get "L" with
      | jarr xs => (toList xs).map jarr
      | _ => none  -- .map on a truthy non-array throws
    else if truthy (fields.get "SS") then
      match fields.get "SS" with
      | jarr xs => (mapStringCoerce xs).map (fun ys => jset (dedupFirst ys))
      | _ => none  -- .map on a truthy non-array throws
    else if truthy (fields.get "NS") then
      match fields.get "NS" with
      | jarr xs => (mapNumberCoerce xs).map (fun ys => jset (dedupFirst ys))
      | _ => none
    else if truthy (fields.get "BS") then
      match fields.get "BS" with
      | jarr xs => (mapFromB64 xs).map jset  -- decoded Buffers are fresh objects,
                                             -- so new Set(..) never merges them
      | _ => none
    else
      (toFields fields).map jobj           -- line 58-64
termination_by v => sizeOf v
decreasing_by
  all_goals simp_wf
  all_goals try omega
  · have h := sizeOf_get_le fields "M"
    rw [hMv] at h
    simp at h
    omega
  · have h := sizeOf_get_le fields "L"
    rw [hLv] at h
    simp at h
    omega

/-- `dynamoItem.L.map(toObject)` (also the bare-array branch). -/
def toList : JxList → Option JxList
  | .nil => some .nil
  | .cons x xs =>
    match toObject x, toList xs with
    | some y, some ys => some (.cons y ys)
    | _, _ => none
termination_by xs => sizeOf xs
decreasing_by
  all_goals simp_wf
  all_goals omega

/-- The field loops of lines 30-36 and 58-64: each value decoded in
place; a field whose decode returns `undefined` is kept (assigned, never
deleted). -/
def toFields : JxFields → Option JxFields
  | .nil => some .nil
  | .cons k v rest =>
    match toObject v, toFields rest with
    | some w, some ws => some (.cons k w ws)
    | _, _ => none
termination_by fs => sizeOf fs
decreasing_by
  all_goals simp_wf
  all_goals omega
end

/-! ## Predicates used in the round-trip analysis -/

/-- Membership of a value in a member list. -/
def JxList.elem : JxList → Jx → Bool
  | .nil, _ => false
  | .cons y ys, x => y = x || ys.elem x

/-- No two members equal (what a JS `Set` of primitive values
guarantees). -/
def JxList.nodupB : JxList → Bool
  | .nil => true
  | .cons x xs => !(xs.elem x) && xs.nodupB

/-- Every element a plain object. -/
def allPOJO : JxList → Bool
  | .nil => true
  | .cons x xs => isPOJO x && allPOJO xs

/-- Every member a string, none consisting only of digits. -/
def allStrMembers : JxList → Bool
  | .nil => true
  | .cons (jstr s) xs => !digitsOnly s && allStrMembers xs
  | .cons _ _ => false

/-- Every member a number. -/
def allNumMembers : JxList → Bool
  | .nil => true
  | .cons (jnum _) xs => allNumMembers xs
  | .cons _ _ => false

/-- Every member a Buffer with valid bytes. -/
def allBufMembers : JxList → Bool
  | .nil => true
  | .cons (jbuf bs) xs => bs.all (fun b => b < 256) && allBufMembers xs
  | .cons _ _ => false

/-- The ten wire-value tag keys recognized by `toObject`. -/
def isTag (k : String) : Bool :=
  k == "S" || k == "N" || k == "B" || k == "BOOL" || k == "NULL" ||
  k == "M" || k == "L" || k == "SS" || k == "NS" || k == "BS"

/-- No key of the object is a wire tag key. -/
def tagFree : JxFields → Bool
  | .nil => true
  | .cons k _ rest => !(isTag k) && tagFree rest

mutual
/-- The native values for which the round trip is provable (the amended
hypothesis of the round-trip law).  Beyond the claim's own exclusions
(no digit-only string, no empty set) it excludes the shapes the codec
demonstrably destroys: empty Buffers (`{B: ""}` is falsy on decode),
maps carrying a wire tag key (the decoder's duck-typed dispatch
misreads them when they are decoded bare), lists whose first element is
a plain object but whose later elements are not (every element gets
`{M}`-wrapped), sets of strings or numbers with repeated members (the
decoder's `new Set` would merge them), mixed-kind sets, and `undefined`
inside structures. -/
def safe : Jx → Bool
  | .undef => false
  | .jnull => true
  | .jbool _ => true
  | .jnum _ => true
  | .jstr s => !digitsOnly s
  | .jbuf bs => !bs.isEmpty && bs.all (fun b => b < 256)
  | .jset xs =>
    match xs.headOrUndef with
    | jstr _ => allStrMembers xs && xs.nodupB
    | jnum _ => allNumMembers xs && xs.nodupB
    | jbuf _ => allBufMembers xs
    | _ => false
  | .jarr xs => safeList xs && (!isPOJO xs.headOrUndef || allPOJO xs)
  | .jobj fields => tagFree fields && safeFields fields

/-- All elements safe. -/
def safeList : JxList → Bool
  | .nil => true
  | .cons x xs => safe x && safeList xs

/-- All field values safe. -/
def safeFields : JxFields → Bool
  | .nil => true
  | .cons _ v rest => safe v && safeFields rest
end

mutual
/-- The hypothesis of claim C1 exactly as the spec states it, for the
purpose of exhibiting a counterexample: a Native Value (nested strings,
numbers, booleans, null, Buffers, plain maps, lists, non-empty
homogeneous sets — no `undefined`) that contains no string consisting
only of decimal digits and no empty set. -/
def claimNative : Jx → Bool
  | .undef => false
  | .jnull => true
  | .jbool _ => true
  | .jnum _ => true
  | .jstr s => !digitsOnly s
  | .jbuf bs => bs.all (fun b => b < 256)
  | .jset xs =>
    match xs.headOrUndef with
    | jstr _ => allStrMembers xs
    | jnum _ => allNumMembers xs
    | jbuf _ => allBufMembers xs
    | _ => false
  | .jarr xs => claimNativeList xs
  | .jobj fields => claimNativeFields fields

/-- All elements claim-eligible. -/
def claimNativeList : JxList → Bool
  | .nil => true
  | .cons x xs => claimNative x && claimNativeList xs

/-- All field values claim-eligible. -/
def claimNativeFields : JxFields → Bool
  | .nil => true
  | .cons _ v rest => claimNative v && claimNativeFields rest
end

/-! ## The request builders (src/Cache.js)

`updateOne` (lines 170-188), `increment` (lines 190-209) and `_query`
(lines 211-254) each assemble a command-parameter record.  Only the pure
construction of that record is embedded; sending the command is the
excluded transport layer.  Placeholder tables are JS objects, so their
values are `Jx` (an assignment of `undefined` creates the key). -/

/-- JS property assignment `o[k] = v` on an object modelled as an ordered
assoc list: overwrite in place if the key exists, else append. -/
def assign : List (String × Jx) → String → Jx → List (String × Jx)
  | [], k, v => [(k, v)]
  | (k2, v2) :: rest, k, v =>
    if k2 = k then (k, v) :: rest else (k2, v2) :: assign rest k v

/-- The parameters of an UpdateItemCommand. -/
structure UpdateParams where
  TableName : String
  Key : Jx
  UpdateExpression : String
  ExpressionAttributeNames : List (String × Jx)
  ExpressionAttributeValues : List (String × Jx)
  ReturnValues : String
  deriving Repr, DecidableEq

/-- `Object.keys(update).map((_, i) => `#K${i}=:val${i}`)` — the clause
list of `updateOne` (src/Cache.js lines 174-176).  Note that
`Object.keys` lists every own enumerable property, including those whose
stored value is `undefined`. -/
def setClauses : Nat → JxFields → List String
  | _, .nil => []
  | i, .cons _ _ rest =>
    ("#K" ++ natStr i ++ "=:val" ++ natStr i) :: setClauses (i + 1) rest

/-- The clause list of `increment` (src/Cache.js lines 194-196):
`#K${i} = #K${i} + :val${i}`. -/
def addClauses : Nat → JxFields → List String
  | _, .nil => []
  | i, .cons _ _ rest =>
    ("#K" ++ natStr i ++ " = #K" ++ natStr i ++ " + :val" ++ natStr i) :: addClauses (i + 1) rest

/-- The name table loop shared by `updateOne` and `increment`
(src/Cache.js lines 181-184 and 202-205): `#K${i} -> key`. -/
def keyNames : Nat → JxFields → List (String × Jx)
  | _, .nil => []
  | i, .cons k _ rest => ("#K" ++ natStr i, jstr k) :: keyNames (i + 1) rest

/-- The value table loop shared by `updateOne` and `increment`:
`:val${i} -> fromObject(update[key])`. -/
def valEntries : Nat → JxFields → List (String × Jx)
  | _, .nil => []
  | i, .cons _ v rest => (":val" ++ natStr i, fromObject v) :: valEntries (i + 1) rest

/-- Model of `updateOne` (src/Cache.js lines 170-188): the parameter
record it builds. -/
def updateOneParams (table : String) (mtch : JxFields) (update : JxFields)
    (returnValues : String) : UpdateParams :=
  { TableName := table
    Key := fromObject (jobj mtch)
    UpdateExpression := "SET " ++ String.intercalate "," (setClauses 0 update)
    ExpressionAttributeNames := keyNames 0 update
    ExpressionAttributeValues := valEntries 0 update
    ReturnValues := returnValues }

/-- Model of `increment` (src/Cache.js lines 190-209): the parameter
record it builds. -/
def incrementParams (table : String) (mtch : JxFields) (update : JxFields)
    (returnValues : String) : UpdateParams :=
  { TableName := table
    Key := fromObject (jobj mtch)
    UpdateExpression := "SET " ++ String.intercalate "," (addClauses 0 update)
    ExpressionAttributeNames := keyNames 0 update
    ExpressionAttributeValues := valEntries 0 update
    ReturnValues := returnValues }

/-- The parameters of a QueryCommand. -/
structure QueryParams where
  TableName : String
  Limit : Nat
  ExclusiveStartKey : Option Jx
  ScanIndexForward : Bool
  IndexName : Option String
  KeyConditionExpression : String
  ExpressionAttributeNames : List (String × Jx)
  ExpressionAttributeValues : List (String × Jx)
  deriving Repr, DecidableEq

/-- The match branch of `_query` (src/Cache.js lines 229-241), applied
when `match` is present and has at most one key.  `indexName ||
Object.keys(match)[0]`: a present, non-empty index name wins, otherwise
the match key (an absent match key leaves the JS value `undefined`,
modelled as `none`). -/
def applyMatch (m : JxFields) (indexName : Option String) (p : QueryParams) : QueryParams :=
  { p with
    IndexName :=
      match indexName with
      | some s => if s = "" then (match m with | .nil => none | .cons k _ _ => some k) else some s
      | none => match m with | .nil => none | .cons k _ _ => some k
    KeyConditionExpression := "#S = :val"
    ExpressionAttributeNames := assign p.ExpressionAttributeNames "#S" m.firstKeyJx
    ExpressionAttributeValues := assign p.ExpressionAttributeValues ":val" (fromObject m.firstValJx) }

/-- The range branch of `_query` (src/Cache.js lines 243-250).  The
range argument is an object `{rangeKey: {comparison: literal}}`; the
code reads its first key, the first key of the inner object, and that
inner value.  A non-object inner value would make `Object.keys` behave
differently and is outside the model (`.nil` stands in; no theorem
evaluates that shape), and an absent comparison key would interpolate
the string "undefined" into the template literal. -/
def applyRange (r : JxFields) (p : QueryParams) : QueryParams :=
  let comps : JxFields := match r with
    | .nil => .nil
    | .cons _ (jobj c) _ => c
    | .cons _ _ _ => .nil
  let comparison : String := match comps with
    | .nil => "undefined"
    | .cons c _ _ => c
  { p with
    KeyConditionExpression :=
      p.KeyConditionExpression ++ " AND #R " ++ comparison ++ " :sortKeyVal"
    ExpressionAttributeNames := assign p.ExpressionAttributeNames "#R" r.firstKeyJx
    ExpressionAttributeValues := assign p.ExpressionAttributeValues ":sortKeyVal" (fromObject comps.firstValJx) }

/-- Model of `_query` (src/Cache.js lines 211-254): either the thrown
error message or the parameter record it builds. -/
def queryParams (table : String) (mtch : Option JxFields) (range : Option JxFields)
    (indexName : Option String) (limit : Nat) (start : Option Jx) (ascending : Bool) :
    Except String QueryParams :=
  let base : QueryParams :=
    { TableName := table
      Limit := limit
      ExclusiveStartKey := start
      ScanIndexForward := ascending
      IndexName := none
      KeyConditionExpression := ""
      ExpressionAttributeNames := []
      ExpressionAttributeValues := [] }
  match mtch with
  | some m =>
    if 1 < m.length then
      .error "Match must have exactly one key, which must be am indexed key"
    else
      match range with
      | some r => .ok (applyRange r (applyMatch m indexName base))
      | none => .ok (applyMatch m indexName base)
  | none =>
    match range with
    | some r => .ok (applyRange r base)
    | none => .ok base

/-- The fields whose stored value is defined — what the spec says
survives encoding (stated from the claim's words, for comparison with
`fromFields`). -/
def dropUndefined : JxFields → JxFields
  | .nil => .nil
  | .cons k v rest =>
    if v = .undef then dropUndefined rest else .cons k v (dropUndefined rest)

/-! ## Theorems 

Everything from here on is a proof about the definitions above;
no further definitions are introduced. -/

theorem natChars_fuel_irrel : ∀ f g n : Nat, n < f → n < g → natChars f n = natChars g n := by
  intro f
  induction f with
  | zero => intro g n h; omega
  | succ f ih =>
    intro g n hf hg
    match g, hg with
    | g + 1, hg =>
      simp only [natChars]
      by_cases h10 : n < 10
      · simp [h10]
      · simp only [h10, if_false]
        rw [ih g (n / 10) (by omega) (by omega)]

theorem natChars_ne_nil (n : Nat) : natChars (n + 1) n ≠ [] := by
  simp only [natChars]
  by_cases h10 : n < 10 <;> simp [h10]

theorem digVal_digitChar (d : Nat) (h : d < 10) : digVal (digitChar d) = some d := by
  interval_cases d <;> decide

theorem parseDigitsAux_append (cs ds : List Char) :
    ∀ acc, parseDigitsAux (cs ++ ds) acc =
      match parseDigitsAux cs acc with
      | some m => parseDigitsAux ds m
      | none => none := by
  induction cs with
  | nil => intro acc; simp [parseDigitsAux]
  | cons c cs ih =>
    intro acc
    simp only [List.cons_append, parseDigitsAux]
    cases digVal c with
    | some d => exact ih (acc * 10 + d)
    | none => rfl

theorem parseDigitsAux_natChars :
    ∀ n acc : Nat, parseDigitsAux (natChars (n + 1) n) acc =
      some (acc * 10 ^ (natChars (n + 1) n).length + n) := by
  intro n
  induction n using Nat.strong_induction_on with
  | _ n ih =>
    intro acc
    by_cases h10 : n < 10
    · simp [natChars, h10, parseDigitsAux, digVal_digitChar n h10]
    · have hstep : natChars (n + 1) n = natChars (n / 10 + 1) (n / 10) ++ [digitChar (n % 10)] := by
        conv_lhs => simp only [natChars]
        simp only [h10, if_false]
        rw [natChars_fuel_irrel n (n / 10 + 1) (n / 10) (by omega) (by omega)]
      rw [hstep, parseDigitsAux_append]
      rw [ih (n / 10) (by omega) acc]
      simp only [parseDigitsAux, digVal_digitChar (n % 10) (by omega), List.length_append,
        List.length_cons, List.length_nil]
      congr 1
      have : (acc * 10 ^ (natChars (n / 10 + 1) (n / 10)).length + n / 10) * 10 + n % 10 =
          acc * (10 ^ (natChars (n / 10 + 1) (n / 10)).length * 10) + (n / 10 * 10 + n % 10) := by
        ring
      rw [this, Nat.pow_succ]
      omega

theorem parseDigits_natChars (n : Nat) : parseDigits (natChars (n + 1) n) = some n := by
  rw [parseDigits, if_neg (by simp [natChars_ne_nil n])]
  rw [parseDigitsAux_natChars n 0]
  simp

theorem natChars_head (n : Nat) :
    ∃ d cs, natChars (n + 1) n = digitChar d :: cs ∧ d < 10 := by
  induction n using Nat.strong_induction_on with
  | _ n ih =>
    by_cases h10 : n < 10
    · exact ⟨n, [], by simp [natChars, h10], h10⟩
    · obtain ⟨d, cs, hd, hd10⟩ := ih (n / 10) (by omega)
      refine ⟨d, cs ++ [digitChar (n % 10)], ?_, hd10⟩
      simp only [natChars, h10, if_false]
      rw [natChars_fuel_irrel n (n / 10 + 1) (n / 10) (by omega) (by omega), hd]
      simp

theorem digitChar_ne_dash (d : Nat) (h : d < 10) : digitChar d ≠ '-' := by
  interval_cases d <;> decide

theorem digitChar_ne_plus (d : Nat) (h : d < 10) : digitChar d ≠ '+' := by
  interval_cases d <;> decide

/-- Reading back a printed integer with `Number(..)` restores it. -/
theorem jsNumOfString_intStr (n : Int) : jsNumOfString (intStr n) = some n := by
  cases n with
  | ofNat m =>
    obtain ⟨d, cs, hd, hd10⟩ := natChars_head m
    simp only [intStr, jsNumOfString, natStr, hd]
    rw [if_neg (digitChar_ne_dash d hd10), if_neg (digitChar_ne_plus d hd10), ← hd,
      parseDigits_natChars m]
    simp
  | negSucc m =>
    have hdata : ("-" ++ natStr (m + 1)).data = '-' :: natChars (m + 2) (m + 1) := by
      simp [natStr, String.data_append]
    simp only [intStr, jsNumOfString, hdata]
    rw [parseDigits_natChars (m + 1)]
    simp [Int.negSucc_eq]

theorem charSextet_sextetChar {n : Nat} (h : n < 64) : charSextet (sextetChar n) = some n := by
  have H : ∀ m ∈ List.range 64, charSextet (sextetChar m) = some m := by decide
  exact H n (List.mem_range.mpr h)

theorem sextetChar_ne_pad {n : Nat} (h : n < 64) : sextetChar n ≠ '=' := by
  have H : ∀ m ∈ List.range 64, sextetChar m ≠ '=' := by decide
  exact H n (List.mem_range.mpr h)

theorem b64EncodeChunks_ne_nil (b : Nat) (rest : List Nat) :
    b64EncodeChunks (b :: rest) ≠ [] := by
  match rest with
  | [] => simp [b64EncodeChunks]
  | [b1] => simp [b64EncodeChunks]
  | b1 :: b2 :: rest => simp [b64EncodeChunks]

/-- Decoding an encoded byte list restores it. -/
theorem b64_roundtrip : ∀ bs : List Nat, (∀ b ∈ bs, b < 256) →
    b64DecodeChunks (b64EncodeChunks bs) = some bs
  | [], _ => by simp [b64EncodeChunks, b64DecodeChunks]
  | [b0], h => by
    have hb0 : b0 < 256 := h b0 (by simp)
    simp only [b64EncodeChunks, b64DecodeChunks,
      charSextet_sextetChar (show b0 / 4 < 64 by omega),
      charSextet_sextetChar (show b0 % 4 * 16 < 64 by omega)]
    simp only [if_true, and_self, Option.some.injEq, List.cons.injEq, and_true]
    omega
  | [b0, b1], h => by
    have hb0 : b0 < 256 := h b0 (by simp)
    have hb1 : b1 < 256 := h b1 (by simp)
    simp only [b64EncodeChunks, b64DecodeChunks,
      charSextet_sextetChar (show b0 / 4 < 64 by omega),
      charSextet_sextetChar (show b0 % 4 * 16 + b1 / 16 < 64 by omega),
      charSextet_sextetChar (show b1 % 16 * 4 < 64 by omega),
      sextetChar_ne_pad (show b1 % 16 * 4 < 64 by omega)]
    simp only [if_false, if_true, Option.some.injEq, List.cons.injEq, and_true]
    omega
  | b0 :: b1 :: b2 :: rest, h => by
    have hb0 : b0 < 256 := h b0 (by simp)
    have hb1 : b1 < 256 := h b1 (by simp)
    have hb2 : b2 < 256 := h b2 (by simp)
    have hrest : ∀ b ∈ rest, b < 256 := fun b hb => h b (by simp [hb])
    simp only [b64EncodeChunks, b64DecodeChunks,
      charSextet_sextetChar (show b0 / 4 < 64 by omega),
      charSextet_sextetChar (show b0 % 4 * 16 + b1 / 16 < 64 by omega),
      charSextet_sextetChar (show b1 % 16 * 4 + b2 / 64 < 64 by omega),
      charSextet_sextetChar (show b2 % 64 < 64 by omega),
      sextetChar_ne_pad (show b1 % 16 * 4 + b2 / 64 < 64 by omega),
      sextetChar_ne_pad (show b2 % 64 < 64 by omega),
      b64_roundtrip rest hrest]
    simp only [if_false, Option.map_some', Option.some.injEq, List.cons.injEq, and_true, true_and]
    omega

/-! ## Supporting lemmas -/

theorem get_of_not_hasOwn : ∀ (fs : JxFields) (k : String),
    fs.hasOwn k = false → fs.get k = undef
  | .nil, _, _ => rfl
  | .cons k2 v rest, k, h => by
    simp only [JxFields.hasOwn, Bool.or_eq_false_iff] at h
    obtain ⟨h1, h2⟩ := h
    simp only [JxFields.get]
    rw [if_neg (by simpa using h1)]
    exact get_of_not_hasOwn rest k h2

theorem hasOwn_false_of_tagFree : ∀ (fs : JxFields) (k : String),
    tagFree fs = true → isTag k = true → fs.hasOwn k = false
  | .nil, _, _, _ => rfl
  | .cons k2 v rest, k, h, hk => by
    simp only [tagFree, Bool.and_eq_true] at h
    obtain ⟨h1, h2⟩ := h
    simp only [JxFields.hasOwn, Bool.or_eq_false_iff]
    constructor
    · by_contra hne
      simp only [Bool.not_eq_false, beq_iff_eq, decide_eq_true_eq] at hne
      rw [hne, hk] at h1
      simp at h1
    · exact hasOwn_false_of_tagFree rest k h2 hk

theorem fromFields_tagFree : ∀ fs : JxFields,
    tagFree fs = true → tagFree (fromFields fs) = true
  | .nil, _ => rfl
  | .cons k v rest, h => by
    simp only [tagFree, Bool.and_eq_true] at h
    obtain ⟨h1, h2⟩ := h
    have ih := fromFields_tagFree rest h2
    simp only [fromFields]
    by_cases hP : isPOJO v
    · simp [hP, tagFree, h1, ih]
    · simp only [hP, Bool.false_eq_true, if_false]
      cases hv : fromObject v with
      | undef => exact ih
      | _ => simp [tagFree, h1, ih]

theorem fromObject_undef_iff : ∀ v : Jx, fromObject v = .undef ↔ v = .undef := by
  intro v
  cases v
  case jstr s => by_cases h : digitsOnly s <;> simp [fromObject, h]
  case jset xs => cases hx : xs.headOrUndef <;> simp [fromObject, hx]
  case jarr xs => by_cases h : isPOJO xs.headOrUndef <;> simp [fromObject, h]
  all_goals simp [fromObject]

theorem toObject_tagFree (fs : JxFields) (h : tagFree fs = true) :
    toObject (jobj fs) = (toFields fs).map jobj := by
  have hS : fs.get "S" = undef := get_of_not_hasOwn fs "S" (hasOwn_false_of_tagFree fs "S" h (by decide))
  have hN : fs.get "N" = undef := get_of_not_hasOwn fs "N" (hasOwn_false_of_tagFree fs "N" h (by decide))
  have hB : fs.get "B" = undef := get_of_not_hasOwn fs "B" (hasOwn_false_of_tagFree fs "B" h (by decide))
  have hBOOL : fs.hasOwn "BOOL" = false := hasOwn_false_of_tagFree fs "BOOL" h (by decide)
  have hNULL : fs.get "NULL" = undef := get_of_not_hasOwn fs "NULL" (hasOwn_false_of_tagFree fs "NULL" h (by decide))
  have hM : fs.get "M" = undef := get_of_not_hasOwn fs "M" (hasOwn_false_of_tagFree fs "M" h (by decide))
  have hL : fs.get "L" = undef := get_of_not_hasOwn fs "L" (hasOwn_false_of_tagFree fs "L" h (by decide))
  have hSS : fs.get "SS" = undef := get_of_not_hasOwn fs "SS" (hasOwn_false_of_tagFree fs "SS" h (by decide))
  have hNS : fs.get "NS" = undef := get_of_not_hasOwn fs "NS" (hasOwn_false_of_tagFree fs "NS" h (by decide))
  have hBS : fs.get "BS" = undef := get_of_not_hasOwn fs "BS" (hasOwn_false_of_tagFree fs "BS" h (by decide))
  simp [toObject, hS, hN, hB, hBOOL, hNULL, hM, hL, hSS, hNS, hBS, truthy]

theorem dedupFirstAux_eq_self : ∀ (xs : JxList) (seen : List Jx),
    xs.nodupB = true → (∀ y, xs.elem y = true → y ∉ seen) →
    dedupFirstAux xs seen = xs
  | .nil, _, _, _ => rfl
  | .cons x xs, seen, hnd, hdis => by
    simp only [JxList.nodupB, Bool.and_eq_true, Bool.not_eq_true'] at hnd
    obtain ⟨hx, hnd⟩ := hnd
    have hxseen : x ∉ seen := hdis x (by simp [JxList.elem])
    simp only [dedupFirstAux, if_neg hxseen]
    congr 1
    refine dedupFirstAux_eq_self xs (x :: seen) hnd ?_
    intro y hy
    simp only [List.mem_cons, not_or]
    constructor
    · rintro rfl
      rw [hy] at hx
      cases hx
    · exact hdis y (by simp [JxList.elem, hy])

theorem dedupFirst_eq_self (xs : JxList) (h : xs.nodupB = true) : dedupFirst xs = xs :=
  dedupFirstAux_eq_self xs [] h (by simp)

theorem mapStringCoerce_id : ∀ xs : JxList,
    allStrMembers xs = true → mapStringCoerce xs = some xs
  | .nil, _ => rfl
  | .cons (jstr s) xs, h => by
    simp only [allStrMembers, Bool.and_eq_true] at h
    simp [mapStringCoerce, jsStringCoerce, mapStringCoerce_id xs h.2]

theorem mapNumberCoerce_id : ∀ xs : JxList,
    allNumMembers xs = true → mapNumberCoerce xs = some xs
  | .nil, _ => rfl
  | .cons (jnum n) xs, h => by
    simp only [allNumMembers] at h
    simp [mapNumberCoerce, jsNumberOf, mapNumberCoerce_id xs h]

theorem base64decode_encode (bs : List Nat) (h : bs.all (fun b => b < 256) = true) :
    base64decode (base64encode bs) = some bs := by
  have hb : ∀ b ∈ bs, b < 256 := by simpa [List.all_eq_true] using h
  simpa [base64decode, base64encode] using b64_roundtrip bs hb

theorem mapFromB64_mapToB64 : ∀ xs : JxList,
    allBufMembers xs = true → mapFromB64 (mapToB64 xs) = some xs
  | .nil, _ => rfl
  | .cons (jbuf bs) xs, h => by
    simp only [allBufMembers, Bool.and_eq_true] at h
    simp [mapToB64, toB64Member, mapFromB64, base64decode_encode bs h.1,
      mapFromB64_mapToB64 xs h.2]

theorem base64encode_ne_empty (b : Nat) (rest : List Nat) :
    base64encode (b :: rest) ≠ "" := by
  simpa [base64encode, String.ext_iff] using b64EncodeChunks_ne_nil b rest

/-- Decoding an `{M: wire}` wrapper decodes the wrapped fields in place. -/
theorem decodeWrapM (mfs res : JxFields) (h : toFields mfs = some res) :
    toObject (jobj (.cons "M" (jobj mfs) .nil)) = some (jobj res) := by
  simp [toObject, JxFields.get, JxFields.hasOwn, truthy, h]

theorem isPOJO_iff (x : Jx) : isPOJO x = true ↔ ∃ fs, x = jobj fs := by
  cases x <;> simp [isPOJO]

theorem fromFields_cons_notPOJO (k : String) (v : Jx) (rest : JxFields)
    (hP : isPOJO v = false) (hne : fromObject v ≠ .undef) :
    fromFields (.cons k v rest) = .cons k (fromObject v) (fromFields rest) := by
  cases hw : fromObject v
  case undef => exact absurd hw hne
  all_goals simp [fromFields, hP, hw]

/-! ## The round trip -/

mutual
/-- Round trip on one safe value. -/
theorem roundTripAux : ∀ v : Jx, safe v = true → toObject (fromObject v) = some v
  | .undef, h => by simp [safe] at h
  | .jnull, _ => by
    simp [fromObject, toObject, JxFields.get, JxFields.hasOwn, truthy]
  | .jbool b, _ => by
    simp [fromObject, toObject, JxFields.get, JxFields.hasOwn, truthy]
  | .jnum n, _ => by
    simp [fromObject, toObject, JxFields.get, JxFields.hasOwn, truthy, jsNumberOf,
      jsNumOfString_intStr n]
  | .jstr s, h => by
    have hd : digitsOnly s = false := by simpa [safe] using h
    simp [fromObject, hd, toObject, JxFields.get, jsToString]
  | .jbuf bs, h => by
    simp only [safe, Bool.and_eq_true] at h
    obtain ⟨hne, hlt⟩ := h
    match bs, hne with
    | b :: rest, _ =>
      simp [fromObject, toObject, JxFields.get, JxFields.hasOwn, truthy,
        base64encode_ne_empty b rest, base64decode_encode (b :: rest) hlt]
  | .jset xs, h => by
    simp only [safe] at h
    cases hx : xs.headOrUndef <;> rw [hx] at h
    case jstr s0 =>
      simp only [Bool.and_eq_true] at h
      simp [fromObject, hx, toObject, JxFields.get, JxFields.hasOwn, truthy,
        mapStringCoerce_id xs h.1, dedupFirst_eq_self xs h.2]
    case jnum n0 =>
      simp only [Bool.and_eq_true] at h
      simp [fromObject, hx, toObject, JxFields.get, JxFields.hasOwn, truthy,
        mapNumberCoerce_id xs h.1, dedupFirst_eq_self xs h.2]
    case jbuf bs0 =>
      simp [fromObject, hx, toObject, JxFields.get, JxFields.hasOwn, truthy,
        mapFromB64_mapToB64 xs h]
    all_goals simp at h
  | .jarr xs, h => by
    simp only [safe, Bool.and_eq_true] at h
    obtain ⟨hl, hbr⟩ := h
    by_cases hP : isPOJO xs.headOrUndef
    · have hap : allPOJO xs = true := by
        rcases Bool.or_eq_true_iff.mp hbr with hno | hyes
        · rw [hP] at hno; cases hno
        · exact hyes
      simp [fromObject, hP, toObject, JxFields.get, JxFields.hasOwn, truthy,
        roundTripWrappedAux xs hl hap]
    · simp [fromObject, hP, toObject, JxFields.get, JxFields.hasOwn, truthy,
        roundTripListAux xs hl]
  | .jobj fs, h => by
    simp only [safe, Bool.and_eq_true] at h
    obtain ⟨htf, hsf⟩ := h
    simp only [fromObject]
    rw [toObject_tagFree (fromFields fs) (fromFields_tagFree fs htf),
      roundTripFieldsAux fs hsf]
    rfl
termination_by v => sizeOf v
decreasing_by
  all_goals simp_wf
  all_goals omega

/-- Round trip on directly encoded list elements. -/
theorem roundTripListAux : ∀ xs : JxList, safeList xs = true → toList (fromList xs) = some xs
  | .nil, _ => by simp [fromList, toList]
  | .cons x xs, h => by
    simp only [safeList, Bool.and_eq_true] at h
    simp [fromList, toList, roundTripAux x h.1, roundTripListAux xs h.2]
termination_by xs => sizeOf xs
decreasing_by
  all_goals simp_wf
  all_goals omega

/-- Round trip on `{M}`-wrapped list elements (all of them plain objects). -/
theorem roundTripWrappedAux : ∀ xs : JxList, safeList xs = true → allPOJO xs = true →
    toList (fromListWrapped xs) = some xs
  | .nil, _, _ => by simp [fromListWrapped, toList]
  | .cons x xs, h, hp => by
    simp only [safeList, Bool.and_eq_true] at h
    simp only [allPOJO, Bool.and_eq_true] at hp
    obtain ⟨xfs, hxeq⟩ := (isPOJO_iff x).mp hp.1
    have hx1 : safe (jobj xfs) = true := hxeq ▸ h.1
    have hx : tagFree xfs = true ∧ safeFields xfs = true := by simpa [safe] using hx1
    have hdec := decodeWrapM (fromFields xfs) xfs (roundTripFieldsAux xfs hx.2)
    rw [hxeq]
    simp [fromListWrapped, fromObject, toList, hdec, roundTripWrappedAux xs h.2 hp.2]
termination_by xs => sizeOf xs
decreasing_by
  all_goals simp_wf
  all_goals try omega
  all_goals subst hxeq
  all_goals simp
  all_goals omega

/-- Round trip on the fields of a plain object. -/
theorem roundTripFieldsAux : ∀ fs : JxFields, safeFields fs = true →
    toFields (fromFields fs) = some fs
  | .nil, _ => by simp [fromFields, toFields]
  | .cons k v rest, h => by
    simp only [safeFields, Bool.and_eq_true] at h
    obtain ⟨hv, hrest⟩ := h
    by_cases hP : isPOJO v
    · obtain ⟨vfs, hveq⟩ := (isPOJO_iff v).mp hP
      have hv2 : safe (jobj vfs) = true := hveq ▸ hv
      have hsafe : tagFree vfs = true ∧ safeFields vfs = true := by simpa [safe] using hv2
      have hdec := decodeWrapM (fromFields vfs) vfs (roundTripFieldsAux vfs hsafe.2)
      rw [hveq]
      simp [fromFields, fromObject, isPOJO, toFields, hdec, roundTripFieldsAux rest hrest]
    · have hvne : v ≠ .undef := by
        rintro rfl
        simp [safe] at hv
      have hne : fromObject v ≠ .undef := fun he => hvne ((fromObject_undef_iff v).mp he)
      rw [fromFields_cons_notPOJO k v rest (by simpa using hP) hne]
      simp [toFields, roundTripAux v hv, roundTripFieldsAux rest hrest]
termination_by fs => sizeOf fs
decreasing_by
  all_goals simp_wf
  all_goals try omega
  all_goals subst hveq
  all_goals simp
  all_goals omega
end

/-! ## Claim theorems -/

/-- C1, counterexample to the claim as stated: the map `{M: "x"}` is a
Native Value containing no digit-only string and no empty set, yet the
round trip returns `{S: "x"}` — the decoder's duck-typed tag dispatch
misreads the encoded field named `M` as an `{M}` wire wrapper. -/
theorem codec_roundtrip_claim_counterexample :
    claimNative (jobj (.cons "M" (jstr "x") .nil)) = true ∧
    toObject (fromObject (jobj (.cons "M" (jstr "x") .nil))) =
      some (jobj (.cons "S" (jstr "x") .nil)) ∧
    jobj (.cons "S" (jstr "x") .nil) ≠ jobj (.cons "M" (jstr "x") .nil) := by
  refine ⟨by decide, ?_, by decide⟩
  have h1 : toFields (.cons "S" (jstr "x") .nil) = some (.cons "S" (jstr "x") .nil) := by
    simp [toFields, toObject]
  have h3 : fromObject (jobj (.cons "M" (jstr "x") .nil)) =
      jobj (.cons "M" (jobj (.cons "S" (jstr "x") .nil)) .nil) := by decide
  rw [h3, decodeWrapM (.cons "S" (jstr "x") .nil) (.cons "S" (jstr "x") .nil) h1]

/-- C1, amended: for every value that contains no digit-only string, no
empty or heterogeneous or duplicate-membered set, no empty Buffer, no
`undefined` inside structures, whose maps never use a wire tag name as a
key, and whose lists never put a plain map first followed by a non-map,
decoding the encoding restores the value exactly. -/
theorem codec_roundtrip_safe (v : Jx) (h : safe v = true) :
    toObject (fromObject v) = some v :=
  roundTripAux v h

/-- Witness for `codec_roundtrip_safe` at a concrete nested value
exercising strings, numbers, booleans, null, Buffers, maps, lists and
both string and number sets. -/
theorem codec_roundtrip_safe_witness :
    safe (jobj (.cons "key" (jstr "v")
      (.cons "nested" (jobj (.cons "objects" (jobj (.cons "also"
          (jarr (.cons (jstr "x") (.cons (jstr "y") .nil))) .nil)) .nil))
      (.cons "tags" (jset (.cons (jstr "p") (.cons (jstr "q") .nil)))
      (.cons "blob" (jbuf [104, 105])
      (.cons "count" (jnum (-7))
      (.cons "ok" (jbool true)
      (.cons "missing" jnull
      (.cons "nums" (jset (.cons (jnum 3) (.cons (jnum 1) .nil)))
      .nil))))))))) = true ∧
    toObject (fromObject (jobj (.cons "key" (jstr "v")
      (.cons "nested" (jobj (.cons "objects" (jobj (.cons "also"
          (jarr (.cons (jstr "x") (.cons (jstr "y") .nil))) .nil)) .nil))
      (.cons "tags" (jset (.cons (jstr "p") (.cons (jstr "q") .nil)))
      (.cons "blob" (jbuf [104, 105])
      (.cons "count" (jnum (-7))
      (.cons "ok" (jbool true)
      (.cons "missing" jnull
      (.cons "nums" (jset (.cons (jnum 3) (.cons (jnum 1) .nil)))
      .nil)))))))))) =
      some (jobj (.cons "key" (jstr "v")
      (.cons "nested" (jobj (.cons "objects" (jobj (.cons "also"
          (jarr (.cons (jstr "x") (.cons (jstr "y") .nil))) .nil)) .nil))
      (.cons "tags" (jset (.cons (jstr "p") (.cons (jstr "q") .nil)))
      (.cons "blob" (jbuf [104, 105])
      (.cons "count" (jnum (-7))
      (.cons "ok" (jbool true)
      (.cons "missing" jnull
      (.cons "nums" (jset (.cons (jnum 3) (.cons (jnum 1) .nil)))
      .nil))))))))) :=
  ⟨by decide, codec_roundtrip_safe _ (by decide)⟩

/-- C3: a string of decimal digits encodes as `{N}` carrying the string
itself, any other string as `{S}`; in particular `"123"` encodes exactly
like the number `123`, and `"12a"` stays a string. -/
theorem fromObject_digit_string_heuristic :
    (∀ s : String, fromObject (jstr s) =
      if digitsOnly s then jobj (.cons "N" (jstr s) .nil)
      else jobj (.cons "S" (jstr s) .nil)) ∧
    fromObject (jstr "123") = fromObject (jnum 123) ∧
    fromObject (jstr "12a") = jobj (.cons "S" (jstr "12a") .nil) := by
  refine ⟨fun s => rfl, by decide, by decide⟩

/-- C7, counterexample to the claim as stated: in `[{a: "x"}, "y"]` the
second element is not a plain map, yet it is `{M}`-wrapped too, because
the wrapping decision is taken once from the first element. -/
theorem list_wrapping_counterexample :
    fromObject (jarr (.cons (jobj (.cons "a" (jstr "x") .nil)) (.cons (jstr "y") .nil))) ≠
      jobj (.cons "L" (jarr (.cons
        (jobj (.cons "M" (fromObject (jobj (.cons "a" (jstr "x") .nil))) .nil))
        (.cons (fromObject (jstr "y")) .nil))) .nil) := by decide

/-- C7, amended: encoding a list produces `{L}`; the wrapping decision is
taken once, from the first element (`isPOJO(obj[0])`): if the first
element is a plain map, every element is wrapped `{M: fromObject(elem)}`,
otherwise every element is encoded directly. -/
theorem list_wrapping_by_first_element (x : Jx) (xs : JxList) :
    fromObject (jarr (.cons x xs)) =
      jobj (.cons "L" (jarr (if isPOJO x then fromListWrapped (.cons x xs)
        else fromList (.cons x xs))) .nil) ∧
    fromListWrapped (.cons x xs) = .cons (jobj (.cons "M" (fromObject x) .nil)) (fromListWrapped xs) ∧
    fromList (.cons x xs) = .cons (fromObject x) (fromList xs) ∧
    fromObject (jarr .nil) = jobj (.cons "L" (jarr .nil) .nil) := by
  refine ⟨?_, rfl, rfl, by decide⟩
  by_cases h : isPOJO x <;> simp [fromObject, JxList.headOrUndef, h]

/-- C8, counterexample to the claim as stated: a set of numbers encodes
as `{NS}` whose members are the numbers themselves, not decimal
strings. -/
theorem number_set_counterexample :
    fromObject (jset (.cons (jnum 1) (.cons (jnum 2) .nil))) =
      jobj (.cons "NS" (jarr (.cons (jnum 1) (.cons (jnum 2) .nil))) .nil) ∧
    jobj (.cons "NS" (jarr (.cons (jnum 1) (.cons (jnum 2) .nil))) .nil) ≠
      jobj (.cons "NS" (jarr (.cons (jstr "1") (.cons (jstr "2") .nil))) .nil) := by decide

/-- C8, amended: the wire tag of a nonempty set is chosen from its first
member: a string member gives `{SS}` with the raw members, a number
member gives `{NS}` with the raw numeric members (not decimal strings),
and a Buffer member gives `{BS}` with each member base64-encoded. -/
theorem set_encoding_by_representative (s : String) (n : Int) (bs : List Nat) (rest : JxList) :
    fromObject (jset (.cons (jstr s) rest)) =
      jobj (.cons "SS" (jarr (.cons (jstr s) rest)) .nil) ∧
    fromObject (jset (.cons (jnum n) rest)) =
      jobj (.cons "NS" (jarr (.cons (jnum n) rest)) .nil) ∧
    fromObject (jset (.cons (jbuf bs) rest)) =
      jobj (.cons "BS" (jarr (.cons (jstr (base64encode bs)) (mapToB64 rest))) .nil) := by
  refine ⟨rfl, rfl, ?_⟩
  simp [fromObject, JxList.headOrUndef, mapToB64, toB64Member]

theorem fromFields_keys_dropUndefined : ∀ fs : JxFields,
    (fromFields fs).keys = (dropUndefined fs).keys
  | .nil => rfl
  | .cons k v rest => by
    have ih := fromFields_keys_dropUndefined rest
    by_cases hP : isPOJO v
    · have hvne : ¬(v = .undef) := by rintro rfl; simp [isPOJO] at hP
      simp [fromFields, hP, dropUndefined, hvne, JxFields.keys, ih]
    · by_cases hv : v = .undef
      · subst hv
        simp [fromFields, isPOJO, dropUndefined, fromObject, ih]
      · have hne : fromObject v ≠ .undef := fun he => hv ((fromObject_undef_iff v).mp he)
        rw [fromFields_cons_notPOJO k v rest (by simpa using hP) hne]
        simp [dropUndefined, hv, JxFields.keys, ih]

/-- C9: `fromObject(undefined)` is `undefined`; the only value encoding
to `undefined` is `undefined` itself; the keys surviving encoding are
exactly the keys whose stored value is defined; and on the concrete map
`{a: "x", b: undefined}` the encoding carries only `a`, whose decoding
yields `{a: "x"}` alone. -/
theorem fromObject_omits_undefined :
    fromObject .undef = .undef ∧
    (∀ v : Jx, fromObject v = .undef ↔ v = .undef) ∧
    (∀ fs : JxFields, (fromFields fs).keys = (dropUndefined fs).keys) ∧
    fromObject (jobj (.cons "a" (jstr "x") (.cons "b" .undef .nil))) =
      jobj (.cons "a" (jobj (.cons "S" (jstr "x") .nil)) .nil) ∧
    toObject (jobj (.cons "a" (jobj (.cons "S" (jstr "x") .nil)) .nil)) =
      some (jobj (.cons "a" (jstr "x") .nil)) := by
  refine ⟨rfl, fromObject_undef_iff, fromFields_keys_dropUndefined, by decide, ?_⟩
  rw [toObject_tagFree (.cons "a" (jobj (.cons "S" (jstr "x") .nil)) .nil) (by decide)]
  simp [toFields, toObject, JxFields.get, jsToString]

/-- C10: an empty set falls through the three set branches into the
plain-object branch (a set has no own enumerable properties), so it
encodes as the empty map `{}` — not an error, not an omitted field — and
the round trip returns the empty plain object. -/
theorem empty_set_encodes_as_empty_object :
    fromObject (jset .nil) = jobj .nil ∧
    toObject (fromObject (jset .nil)) = some (jobj .nil) ∧
    fromObject (jset .nil) ≠ .undef := by
  refine ⟨by decide, ?_, by decide⟩
  have h3 : fromObject (jset .nil) = jobj .nil := by decide
  rw [h3, toObject_tagFree .nil (by decide)]
  simp [toFields]

/-- C2: when `_query` builds a request from both a key-match clause and a
range clause, the two clauses' attribute-name placeholders (`#S` vs `#R`)
and attribute-value placeholders (`:val` vs `:sortKeyVal`) are disjoint,
so the merged tables hold all four entries and no assignment overwrote a
sibling clause's entry. -/
theorem query_placeholder_disjoint (table mk : String) (mv : Jx) (rk cmp : String) (rv : Jx)
    (idx : Option String) (lim : Nat) (start : Option Jx) (asc : Bool) :
    ∃ p : QueryParams,
      queryParams table (some (.cons mk mv .nil))
          (some (.cons rk (jobj (.cons cmp rv .nil)) .nil)) idx lim start asc = .ok p ∧
      p.KeyConditionExpression = "#S = :val" ++ " AND #R " ++ cmp ++ " :sortKeyVal" ∧
      p.ExpressionAttributeNames = [("#S", jstr mk), ("#R", jstr rk)] ∧
      p.ExpressionAttributeValues = [(":val", fromObject mv), (":sortKeyVal", fromObject rv)] ∧
      (p.ExpressionAttributeNames.map Prod.fst).Nodup ∧
      (p.ExpressionAttributeValues.map Prod.fst).Nodup := by
  refine ⟨_, rfl, ?_, ?_, ?_, ?_, ?_⟩
  all_goals
    simp [queryParams, JxFields.length, applyMatch, applyRange, assign,
      JxFields.firstKeyJx, JxFields.firstValJx]

/-- C6: a match map with more than one field makes `_query` throw (the
source's generic `Error` whose message plays the role of the spec's
`InvalidQueryShape`), producing no request; a single-field match map
produces the key condition `#S = :val` with the name placeholder bound to
the field name and the value placeholder bound to the codec encoding of
the literal. -/
theorem query_match_single_field (table k1 : String) (v1 : Jx) (k2 : String) (v2 : Jx)
    (rest : JxFields) (idx : Option String) (lim : Nat) (start : Option Jx) (asc : Bool)
    (k : String) (v : Jx) :
    queryParams table (some (.cons k1 v1 (.cons k2 v2 rest))) none idx lim start asc =
      .error "Match must have exactly one key, which must be am indexed key" ∧
    ∃ p : QueryParams,
      queryParams table (some (.cons k v .nil)) none idx lim start asc = .ok p ∧
      p.KeyConditionExpression = "#S = :val" ∧
      p.ExpressionAttributeNames = [("#S", jstr k)] ∧
      p.ExpressionAttributeValues = [(":val", fromObject v)] := by
  constructor
  · have hlen : 1 < (JxFields.cons k1 v1 (.cons k2 v2 rest)).length := by
      simp [JxFields.length]
    simp [queryParams, hlen]
  · refine ⟨_, rfl, ?_, ?_, ?_⟩
    all_goals
      simp [queryParams, JxFields.length, applyMatch, assign,
        JxFields.firstKeyJx, JxFields.firstValJx]

/-- C4, evaluation at the failing input (the shape of the repository's
own updateOne test with an undefined value): the field `undefined_key`
stored as `undefined` is NOT skipped — it receives the third SET clause,
a name-table entry, and a value-table entry holding `undefined`. -/
theorem updateOne_keeps_undefined_field :
    (updateOneParams "tests" (.cons "primary_key" (jstr "value") .nil)
      (.cons "something" (jstr "other3") (.cons "alsoANewKey" (jstr "boop")
        (.cons "undefined_key" .undef .nil))) "NONE").UpdateExpression =
      "SET #K0=:val0,#K1=:val1,#K2=:val2" ∧
    (updateOneParams "tests" (.cons "primary_key" (jstr "value") .nil)
      (.cons "something" (jstr "other3") (.cons "alsoANewKey" (jstr "boop")
        (.cons "undefined_key" .undef .nil))) "NONE").ExpressionAttributeNames =
      [("#K0", jstr "something"), ("#K1", jstr "alsoANewKey"), ("#K2", jstr "undefined_key")] ∧
    (updateOneParams "tests" (.cons "primary_key" (jstr "value") .nil)
      (.cons "something" (jstr "other3") (.cons "alsoANewKey" (jstr "boop")
        (.cons "undefined_key" .undef .nil))) "NONE").ExpressionAttributeValues =
      [(":val0", jobj (.cons "S" (jstr "other3") .nil)),
       (":val1", jobj (.cons "S" (jstr "boop") .nil)),
       (":val2", .undef)] := by
  refine ⟨?_, ?_, ?_⟩ <;> decide

/-- C5, evaluation at the failing input (incrementing a field absent from
the stored item): the built update expression is a plain addition
`SET #K0 = #K0 + :val0` — it contains no `if_not_exists` initializer and
is not the `ADD` action, so the store rejects it when the field does not
yet exist instead of treating the field as zero. -/
theorem increment_expression_no_initialization :
    (incrementParams "tests" (.cons "primary_key" (jstr "value") .nil)
      (.cons "secondary_key" (jnum 5) .nil) "UPDATED_NEW").UpdateExpression =
      "SET #K0 = #K0 + :val0" ∧
    (incrementParams "tests" (.cons "primary_key" (jstr "value") .nil)
      (.cons "secondary_key" (jnum 5) .nil) "UPDATED_NEW").ExpressionAttributeValues =
      [(":val0", jobj (.cons "N" (jstr "5") .nil))] := by
  refine ⟨?_, ?_⟩ <;> decide
